import Mathlib

/-!
Shallow embedding of `src/codegen/base.h` (class `CodeGenBase`): the ordered
code-region model, the region-scoped emission discipline, the kernel identity
allocator, the source assembly pipeline with its debug-marker escape hatch,
the deterministic artifact naming, and the lazy cached dynamic loader.

Conventions of the embedding:
* C++ `std::map<CodeRegion, std::string> codes` becomes a function
  `CodeRegion → Option String` (`none` = key absent).  `std::map` iterates its
  entries in strictly increasing key order; `CodeRegion` keys compare by their
  underlying `int` value, which is the declaration order, so iteration over
  the map is modelled by walking `orderedRegions` (the declaration-order list)
  and keeping the present entries.
* `fmt::format(f, args...)` inside `emit` is an external formatting library;
  `emit` is modelled on the already-formatted text.
* File-system and dynamic-loader effects are modelled by explicit inputs
  (the existing file's content, a `LoaderEnv` recording what `dlopen` and
  `dlsym` return) and explicit result records (what was written, whether the
  formatter ran, how many `dlopen` calls happened).
* `TC_ERROR` / failed `TC_ASSERT` abort the process; a function that can
  abort returns `Option`/`Except`, with `none`/`.error` marking the abort.
-/

namespace Taichi

/-- The `CodeRegion` enum of `CodeGenBase` (base.h lines 17-32), in declaration
order.  The underlying `int` values are 0,1,2,... in this order. -/
inductive CodeRegion : Type
  | header
  | exterior_shared_variable_begin
  | exterior_loop_begin
  | interior_shared_variable_begin
  | interior_loop_begin
  | body
  | interior_loop_end
  | residual_begin
  | residual_body
  | residual_end
  | interior_shared_variable_end
  | exterior_loop_end
  | exterior_shared_variable_end
  | tail
deriving DecidableEq, Repr

/-- The underlying `int` value of a `CodeRegion` tag (its declaration index). -/
def CodeRegion.toInt : CodeRegion → Nat
  | .header => 0
  | .exterior_shared_variable_begin => 1
  | .exterior_loop_begin => 2
  | .interior_shared_variable_begin => 3
  | .interior_loop_begin => 4
  | .body => 5
  | .interior_loop_end => 6
  | .residual_begin => 7
  | .residual_body => 8
  | .residual_end => 9
  | .interior_shared_variable_end => 10
  | .exterior_loop_end => 11
  | .exterior_shared_variable_end => 12
  | .tail => 13

/-- Function `CodeGenBase::get_region_name` (base.h lines 34-55): maps each region tag
to the literal spelling of its identifier. -/
def get_region_name : CodeRegion → String
  | .header => "header"
  | .exterior_shared_variable_begin => "exterior_shared_variable_begin"
  | .exterior_loop_begin => "exterior_loop_begin"
  | .interior_shared_variable_begin => "interior_shared_variable_begin"
  | .interior_loop_begin => "interior_loop_begin"
  | .body => "body"
  | .interior_loop_end => "interior_loop_end"
  | .residual_begin => "residual_begin"
  | .residual_body => "residual_body"
  | .residual_end => "residual_end"
  | .interior_shared_variable_end => "interior_shared_variable_end"
  | .exterior_loop_end => "exterior_loop_end"
  | .exterior_shared_variable_end => "exterior_shared_variable_end"
  | .tail => "tail"

/-- All `CodeRegion` tags in declaration order, i.e. in increasing order of
their underlying `int` value.  This is the iteration order of
`std::map<CodeRegion, std::string>`. -/
def orderedRegions : List CodeRegion :=
  [.header, .exterior_shared_variable_begin, .exterior_loop_begin,
   .interior_shared_variable_begin, .interior_loop_begin, .body,
   .interior_loop_end, .residual_begin, .residual_body, .residual_end,
   .interior_shared_variable_end, .exterior_loop_end,
   .exterior_shared_variable_end, .tail]

/-- The code buffer: `std::map<CodeRegion, std::string> codes`, as a partial
map from region to accumulated text. -/
def CodeBuffer : Type := CodeRegion → Option String

/-- The map update performed by `CodeGenBase::emit` (base.h lines 145-152) on
region `r`: if `codes` has no entry for `r` one is created empty, then the
formatted text plus the line suffix is appended to the entry of `r`. -/
def applyEmit (codes : CodeBuffer) (r : CodeRegion) (text lineSuffix : String) :
    CodeBuffer :=
  fun q =>
    if q = r then some ((codes r).getD "" ++ text ++ lineSuffix) else codes q

/-- The mutable per-instance state of a `CodeGenBase` that the claims are
about: the active region, the code buffer, the line suffix and the cached
dynamic-library handle (`void *dll`, `none` = `nullptr`; handles are
abstract `Nat` tokens). -/
structure GenState where
  current_code_region : CodeRegion
  codes : CodeBuffer
  line_suffix : String
  dll : Option Nat

/-- Function `CodeGenBase::emit` (base.h lines 145-152): appends the formatted text
plus `line_suffix` to the buffer entry of the currently active region.  Note
the source function takes no region parameter: the target region is always
`current_code_region`. -/
def emit (st : GenState) (text : String) : GenState :=
  { st with
    codes := applyEmit st.codes st.current_code_region text st.line_suffix }

/-- The per-instance state established by the constructor
`CodeGenBase::CodeGenBase` (base.h lines 89-99): `dll = nullptr`,
`current_code_region = CodeRegion::header`, `line_suffix = "\n"`, and an
empty code buffer (the `codes` map starts with no entries). -/
def CodeGenBase_init : GenState :=
  { current_code_region := .header
    codes := fun _ => none
    line_suffix := "\n"
    dll := none }

/-- Function `CodeGenBase::get_kernel_id` (base.h lines 83-87).  The static counter is
made explicit: `st` is the counter value before the call.  `TC_ASSERT(id <
10000)` aborts once the ceiling is reached, modelled by `none`; otherwise the
current value is returned and the counter incremented. -/
def get_kernel_id (st : Nat) : Option (Nat × Nat) :=
  if st < 10000 then some (st, st + 1) else none

/-- Running `n` successive calls to `get_kernel_id` starting from counter state `st`:
the list of ids handed out and the final counter, or `none` if any call
aborts. -/
def allocSeq : Nat → Nat → Option (List Nat × Nat)
  | 0, st => some ([], st)
  | n + 1, st =>
    match get_kernel_id st with
    | none => none
    | some (i, st1) =>
      match allocSeq n st1 with
      | none => none
      | some (l, st2) => some (i :: l, st2)

/-- Does `pre` occur at the very start of `l`?  (Character-list comparison,
used to model `std::string::find`.) -/
def leadsChars : List Char → List Char → Bool
  | [], _ => true
  | _ :: _, [] => false
  | a :: as, b :: bs => a == b && leadsChars as bs

/-- Does `needle` occur as a contiguous substring of `hay`?  This is
`hay.find(needle) != npos` of `std::string`. -/
def hasSub (needle : List Char) : List Char → Bool
  | [] => needle.isEmpty
  | c :: cs => leadsChars needle (c :: cs) || hasSub needle cs

/-- The first line of a file's content: what `std::getline` reads, i.e. the
characters before the first newline. -/
def firstLineChars : List Char → List Char
  | [] => []
  | c :: cs => if c = '\n' then [] else c :: firstLineChars cs

/-- The debug-marker test of `write_source` (base.h line 158):
`firstline.find("debug") != firstline.npos`.  `content` is the full content
of the existing target file (`none` when the file does not exist, in which
case `std::getline` on the failed stream leaves `firstline` empty). -/
def firstLineContainsDebug (content : Option String) : Bool :=
  hasSub "debug".data (firstLineChars (content.getD "").data)

/-- The bytes `write_source` streams into the target file (base.h lines
162-168): for each entry of the `codes` map, in map-iteration order (=
`CodeRegion` declaration order), the line `// region <name>` (the
`std::endl` is the newline) followed by that region's accumulated text
verbatim. -/
def assembleSource (codes : CodeBuffer) : String :=
  String.join <| orderedRegions.filterMap fun r =>
    (codes r).map fun s => "// region " ++ get_region_name r ++ "\n" ++ s

/-- The observable outcome of one `CodeGenBase::write_source` call:
the target file's content after the overwrite step (before the in-place
formatter runs), whether `TC_WARN` fired, whether the overwrite happened,
whether the `cp ... _unformated` copy ran and whether `clang-format` ran. -/
structure WriteResult where
  fileContent : String
  warned : Bool
  wrote : Bool
  copiedUnformatted : Bool
  ranFormatter : Bool
deriving DecidableEq, Repr

/-- Function `CodeGenBase::write_source` (base.h lines 154-175).  `existing` is the
current content of the target source file (`none` if absent).  If the first
line of the existing file contains the literal token `debug`, the function
warns and returns with the file untouched; otherwise it overwrites the file
with `assembleSource codes`, then (best-effort) copies it to the
`_unformated` sibling and runs `clang-format -i` on it. -/
def write_source (existing : Option String) (codes : CodeBuffer) : WriteResult :=
  if firstLineContainsDebug existing then
    { fileContent := existing.getD ""
      warned := true
      wrote := false
      copiedUnformatted := false
      ranFormatter := false }
  else
    { fileContent := assembleSource codes
      warned := false
      wrote := true
      copiedUnformatted := true
      ranFormatter := true }

/-- Zero-padding of the format specifier `{:04d}` / `{:06d}` of `fmt`:
the decimal rendering of `n`, left-padded with zeros to `width` digits
(numbers with more digits are printed in full). -/
def padZeros (width : Nat) (n : Nat) : String :=
  ⟨List.replicate (width - (toString n).length) '0' ++ (toString n).data⟩

/-- Function `CodeGenBase::get_source_name` (base.h lines 101-103):
`tmp` + 4-digit-zero-padded id + `.` + suffix. -/
def get_source_name (id : Nat) (suffix : String) : String :=
  "tmp" ++ padZeros 4 id ++ "." ++ suffix

/-- The function name derived in the constructor (base.h line 91):
`func` + 6-digit-zero-padded id. -/
def func_name_of (id : Nat) : String :=
  "func" ++ padZeros 6 id

/-- Function `CodeGenBase::get_library_fn`, `TC_PLATFORM_OSX` branch (base.h line
134): `folder` + `/tmp` + 4-digit-zero-padded id + `.dylib`.  Note the
language suffix does not appear. -/
def get_library_fn_osx (folder : String) (id : Nat) : String :=
  folder ++ "/tmp" ++ padZeros 4 id ++ ".dylib"

/-- Function `CodeGenBase::get_library_fn`, non-OSX branch (base.h line 136):
`folder` + `/` + source file name + `.so`. -/
def get_library_fn_other (folder : String) (id : Nat) (suffix : String) :
    String :=
  folder ++ "/" ++ get_source_name id suffix ++ ".so"

/-- What the operating-system dynamic loader would answer in this process:
the handle `dlopen` returns for each path (`none` = open failure), the
address `dlsym` resolves for each handle and symbol name (`none` = symbol
absent), and the diagnostic string `dlerror` reports after a failed open. -/
structure LoaderEnv where
  dlopenRes : String → Option Nat
  dlsymRes : Nat → String → Option Nat
  dlerrorMsg : String

/-- The fatal failures of the loading path: `TC_ERROR("{}", dlerror())` in
`load_dll`, and the failed `TC_ASSERT(ret != nullptr)` in `load_function`. -/
inductive LoadError
  | libraryLoadFailure (diag : String)
  | symbolResolutionFailure
deriving DecidableEq, Repr

/-- Function `CodeGenBase::load_dll` (base.h lines 177-183): `dlopen` the library
path; on `nullptr`, fail fatally reporting the `dlerror` diagnostic. -/
def load_dll (env : LoaderEnv) (path : String) : Except LoadError Nat :=
  match env.dlopenRes path with
  | some h => .ok h
  | none => .error (.libraryLoadFailure env.dlerrorMsg)

/-- The observable outcome of a successful `load_function` call: the handle
cached in `dll` afterwards, the resolved symbol address that is cast and
returned, and how many `dlopen` calls this invocation performed. -/
structure LoadOutcome where
  dllAfter : Nat
  addr : Nat
  openCalls : Nat
deriving DecidableEq, Repr

/-- Function `CodeGenBase::load_function` (base.h lines 185-193).  `dll` is the cached
handle before the call (`none` = `nullptr`).  If no handle is cached the
library is opened first (`load_dll`); then the symbol is resolved with
`dlsym`, a failed resolution being the fatal `TC_ASSERT`. -/
def load_function (env : LoaderEnv) (path : String) (dll : Option Nat)
    (name : String) : Except LoadError LoadOutcome :=
  let acquired : Except LoadError (Nat × Nat) :=
    match dll with
    | some h => .ok (h, 0)
    | none =>
      match load_dll env path with
      | .ok h => .ok (h, 1)
      | .error e => .error e
  match acquired with
  | .error e => .error e
  | .ok (h, n) =>
    match env.dlsymRes h name with
    | some a => .ok ⟨h, a, n⟩
    | none => .error .symbolResolutionFailure

/-- One step of generation code running against a `CodeGenBase`:
`enter r` is the construction of a `CodeRegionGuard` via
`get_region_guard(r)` (base.h lines 66-69 and 76-78), `exitScope` is the
destruction of the innermost live guard (base.h lines 71-73; C++ destroys
scoped locals innermost-first, so only the innermost guard can be the one
destroyed), and `emitText s` is an `emit` call whose formatted text is
`s`. -/
inductive Op
  | enter (r : CodeRegion)
  | exitScope
  | emitText (s : String)

/-- A `CodeGenBase` state together with the live `CodeRegionGuard` objects:
`guards` lists the `previous` field of each live guard, innermost first
(these fields live in the guard objects on the C++ stack, not in the
`CodeGenBase`). -/
structure GuardedState where
  gen : GenState
  guards : List CodeRegion

/-- The effect of one `Op`.  `enter r` saves the current region in the new
guard's `previous` field and makes `r` current; `exitScope` writes the
innermost guard's `previous` back into `current_code_region`; `emitText`
is `emit`. -/
def stepOp (st : GuardedState) : Op → GuardedState
  | .enter r =>
    { gen := { st.gen with current_code_region := r }
      guards := st.gen.current_code_region :: st.guards }
  | .exitScope =>
    match st.guards with
    | [] => st
    | p :: rest =>
      { gen := { st.gen with current_code_region := p }, guards := rest }
  | .emitText s => { st with gen := emit st.gen s }

/-- Run a sequence of operations. -/
def runOps (st : GuardedState) (ops : List Op) : GuardedState :=
  ops.foldl stepOp st

/-- Well-nested operation sequences: every guard constructed inside is also
destroyed inside, in LIFO order.  This is exactly the shape C++ block scoping
gives to `CodeRegionGuard` lifetimes. -/
inductive Balanced : List Op → Prop
  | nil : Balanced []
  | emitCons (s : String) (rest : List Op) :
      Balanced rest → Balanced (Op.emitText s :: rest)
  | scope (r : CodeRegion) (inner rest : List Op) :
      Balanced inner → Balanced rest →
      Balanced (Op.enter r :: inner ++ Op.exitScope :: rest)

/-- The emit calls of a generation run, in program order, projected to one
region: the texts emitted while `r` was the active region. -/
def regionEmits (evs : List (CodeRegion × String)) (r : CodeRegion) :
    List String :=
  (evs.filter fun e => e.1 == r).map fun e => e.2

/-- Accumulated text of a list of emitted lines: each followed by the
constructor's line suffix `"\n"`. -/
def joinNL (l : List String) : String :=
  String.join (l.map fun s => s ++ "\n")

/-- The code buffer produced by a run of `emit` calls (with the
constructor's `line_suffix = "\n"`): each event `(r, s)` is an `emit` of
text `s` while region `r` is active, applied left to right to the initially
empty buffer. -/
def emitsToCodes (evs : List (CodeRegion × String)) : CodeBuffer :=
  evs.foldl (fun codes e => applyEmit codes e.1 e.2 "\n") fun _ => none

/-- The spec's description of the assembled output, written from the spec's
words for comparison with `assembleSource`: the regions that received at
least one emit, taken in the fixed `CodeRegion` declaration order, each
contributing a region-marker comment line naming the region followed by that
region's accumulated text.  It depends only on the per-region projections
`regionEmits`, never on the interleaving. -/
def specOrderedOutput (evs : List (CodeRegion × String)) : String :=
  String.join <|
    (orderedRegions.filter fun r => !(regionEmits evs r).isEmpty).map
      fun r => "// region " ++ get_region_name r ++ "\n" ++
        joinNL (regionEmits evs r)

theorem stringAppend_assoc (a b c : String) : a ++ b ++ c = a ++ (b ++ c) := by
  apply String.ext
  simp [String.data_append]

theorem stringFoldl_shift (a : String) (l : List String) :
    l.foldl (fun x y => x ++ y) a = a ++ l.foldl (fun x y => x ++ y) "" := by
  induction l generalizing a with
  | nil => simp [List.foldl_nil, String.append_empty]
  | cons x l ih =>
    rw [List.foldl_cons, List.foldl_cons, ih (a ++ x), ih ("" ++ x),
      String.empty_append, stringAppend_assoc]

theorem stringJoin_cons (x : String) (l : List String) :
    String.join (x :: l) = x ++ String.join l := by
  show (x :: l).foldl (fun r s => r ++ s) "" = x ++ l.foldl (fun r s => r ++ s) ""
  rw [List.foldl_cons, String.empty_append, stringFoldl_shift]

theorem joinNL_cons (s : String) (l : List String) :
    joinNL (s :: l) = (s ++ "\n") ++ joinNL l := by
  simp only [joinNL, List.map_cons, stringJoin_cons]

/-- Claim C9: `emit` appends the formatted text followed by exactly one line
terminator (`line_suffix`) to the code-buffer entry of the currently active
region, creating that entry (initially empty) on the region's first write,
preserving all previously accumulated text of that region, and leaving every
other region's entry unchanged.  (`emit` takes no region parameter: the
target is always `current_code_region`.) -/
theorem emit_appends_to_active_region (st : GenState) (text : String) :
    (emit st text).codes st.current_code_region
      = some ((st.codes st.current_code_region).getD "" ++ text ++ st.line_suffix)
    ∧ ∀ r : CodeRegion, r ≠ st.current_code_region →
        (emit st text).codes r = st.codes r := by
  constructor
  · simp [emit, applyEmit]
  · intro r hr
    simp [emit, applyEmit, hr]

theorem emit_appends_to_active_region_witness :
    (emit CodeGenBase_init "x = 1;").codes CodeRegion.header
      = some ((CodeGenBase_init.codes CodeRegion.header).getD "" ++ "x = 1;"
          ++ CodeGenBase_init.line_suffix)
    ∧ (emit CodeGenBase_init "x = 1;").codes CodeRegion.body
      = CodeGenBase_init.codes CodeRegion.body := by
  have h := emit_appends_to_active_region CodeGenBase_init "x = 1;"
  exact ⟨h.1, h.2 CodeRegion.body (by decide)⟩

/-- Claim C10: A newly constructed `CodeGenBase` starts with active region
`header` and a null library handle, and any `emit` performed before the
first region guard is created lands in the `header` region. -/
theorem init_header_region_null_dll :
    CodeGenBase_init.current_code_region = CodeRegion.header
    ∧ CodeGenBase_init.dll = none
    ∧ ∀ text : String,
        (emit CodeGenBase_init text).codes CodeRegion.header
          = some (text ++ "\n") := by
  refine ⟨rfl, rfl, fun text => ?_⟩
  simp [emit, applyEmit, CodeGenBase_init, String.empty_append]

theorem init_header_region_null_dll_witness :
    CodeGenBase_init.current_code_region = CodeRegion.header
    ∧ CodeGenBase_init.dll = none
    ∧ (emit CodeGenBase_init "int x;").codes CodeRegion.header
      = some ("int x;" ++ "\n") := by
  have h := init_header_region_null_dll
  exact ⟨h.1, h.2.1, h.2.2 "int x;"⟩

/-- Claim C6: The library is not opened at construction (`dll` starts null);
the first `load_function` call opens it exactly once and caches the handle;
a subsequent call on the same instance performs no further open and resolves
its symbol from the same cached handle. -/
theorem load_function_lazy_and_cached (env : LoaderEnv) (path name : String)
    (h a : Nat) (hopen : env.dlopenRes path = some h)
    (hsym : env.dlsymRes h name = some a) :
    CodeGenBase_init.dll = none
    ∧ load_function env path CodeGenBase_init.dll name = .ok ⟨h, a, 1⟩
    ∧ load_function env path (some h) name = .ok ⟨h, a, 0⟩ := by
  refine ⟨rfl, ?_, ?_⟩ <;> simp [load_function, load_dll, hopen, hsym,
    CodeGenBase_init]

theorem load_function_lazy_and_cached_witness :
    CodeGenBase_init.dll = none
    ∧ load_function ⟨fun _ => some 7, fun _ _ => some 42, "e"⟩ "p"
        CodeGenBase_init.dll "f" = .ok ⟨7, 42, 1⟩
    ∧ load_function ⟨fun _ => some 7, fun _ _ => some 42, "e"⟩ "p"
        (some 7) "f" = .ok ⟨7, 42, 0⟩ :=
  load_function_lazy_and_cached ⟨fun _ => some 7, fun _ _ => some 42, "e"⟩
    "p" "f" 7 42 rfl rfl

/-- Claim C7: With no cached handle, a failed library open is fatal and
reports the OS loader's `dlerror` diagnostic; a successful open followed by
a failed symbol resolution is fatal as well; in both cases the result is an
error, not a callable. -/
theorem load_function_fail_fast (env : LoaderEnv) (path name : String) :
    (env.dlopenRes path = none →
      load_function env path none name
        = .error (.libraryLoadFailure env.dlerrorMsg))
    ∧ ∀ h : Nat, env.dlopenRes path = some h → env.dlsymRes h name = none →
        load_function env path none name = .error .symbolResolutionFailure := by
  constructor
  · intro ho
    simp [load_function, load_dll, ho]
  · intro h ho hs
    simp [load_function, load_dll, ho, hs]

theorem load_function_fail_fast_witness :
    load_function ⟨fun _ => none, fun _ _ => none, "open failed"⟩ "p" none "f"
      = .error (.libraryLoadFailure "open failed")
    ∧ load_function ⟨fun _ => some 3, fun _ _ => none, "e"⟩ "p" none "f"
      = .error .symbolResolutionFailure :=
  ⟨(load_function_fail_fast ⟨fun _ => none, fun _ _ => none, "open failed"⟩
      "p" "f").1 rfl,
   (load_function_fail_fast ⟨fun _ => some 3, fun _ _ => none, "e"⟩
      "p" "f").2 3 rfl rfl⟩

/-- Claim C5: If the target source file exists and its first line contains the
literal token `debug`, `write_source` leaves the file content unchanged,
warns rather than errors, and performs neither the overwrite, nor the
unformatted copy, nor the formatter invocation. -/
theorem write_source_debug_marker_skips (existing : String)
    (codes : CodeBuffer)
    (h : firstLineContainsDebug (some existing) = true) :
    write_source (some existing) codes
      = { fileContent := existing, warned := true, wrote := false,
          copiedUnformatted := false, ranFormatter := false } := by
  simp [write_source, h]

theorem write_source_debug_marker_skips_witness :
    write_source (some "// debug\nint x;") (fun _ => none)
      = { fileContent := "// debug\nint x;", warned := true, wrote := false,
          copiedUnformatted := false, ranFormatter := false } :=
  write_source_debug_marker_skips "// debug\nint x;" (fun _ => none)
    (by decide)

/-- Claim C8: Pre-format determinism: whatever the target file held before
each call, two `write_source` calls with the same code buffer and no debug
marker in the respective first lines both perform the overwrite and write
byte-identical pre-format content. -/
theorem write_source_preformat_deterministic (e1 e2 : Option String)
    (codes : CodeBuffer)
    (h1 : firstLineContainsDebug e1 = false)
    (h2 : firstLineContainsDebug e2 = false) :
    (write_source e1 codes).fileContent = (write_source e2 codes).fileContent
    ∧ (write_source e1 codes).wrote = true
    ∧ (write_source e2 codes).wrote = true := by
  simp [write_source, h1, h2]

theorem write_source_preformat_deterministic_witness :
    (write_source none fun _ => none).fileContent
      = (write_source (some "// region header\n") fun _ => none).fileContent
    ∧ (write_source none fun _ => none).wrote = true
    ∧ (write_source (some "// region header\n") fun _ => none).wrote = true :=
  write_source_preformat_deterministic none (some "// region header\n")
    (fun _ => none) (by decide) (by decide)

/-- Claim C2, amended: For the same id and folder, the non-OSX branch of
`get_library_fn` produces folder + `/` + source file name + `.so`, while the
OSX branch produces folder + `/tmp` + 4-digit-zero-padded id + `.dylib` —
the language suffix of the source file name does not appear on OSX.  The two
paths share the common prefix folder + `/tmp` + padded id and differ only in
the trailing segment (`.dylib` versus `.` + suffix + `.so`). -/
theorem get_library_fn_branches (folder : String) (id : Nat)
    (suffix : String) :
    get_library_fn_osx folder id
      = (folder ++ "/tmp" ++ padZeros 4 id) ++ ".dylib"
    ∧ get_library_fn_other folder id suffix
      = (folder ++ "/tmp" ++ padZeros 4 id) ++ ("." ++ suffix ++ ".so")
    ∧ get_library_fn_other folder id suffix
      = folder ++ "/" ++ get_source_name id suffix ++ ".so" := by
  refine ⟨rfl, ?_, rfl⟩
  apply String.ext
  simp [get_library_fn_other, get_source_name, String.data_append]

theorem get_library_fn_branches_witness :
    get_library_fn_osx "_tlang_cache" 7
      = ("_tlang_cache" ++ "/tmp" ++ padZeros 4 7) ++ ".dylib"
    ∧ get_library_fn_other "_tlang_cache" 7 "cpp"
      = ("_tlang_cache" ++ "/tmp" ++ padZeros 4 7) ++ ("." ++ "cpp" ++ ".so")
    ∧ get_library_fn_other "_tlang_cache" 7 "cpp"
      = "_tlang_cache" ++ "/" ++ get_source_name 7 "cpp" ++ ".so" :=
  get_library_fn_branches "_tlang_cache" 7 "cpp"

/-- Claim C2 counterexample: At folder `_tlang_cache`, id 7, suffix `cpp`, the
OSX branch produces `_tlang_cache/tmp0007.dylib`, which does not begin with
folder + `/` + source file name (= `_tlang_cache/tmp0007.cpp`): no extension
string at all makes the OSX path equal folder + `/` + source file name +
extension, refuting the claim that both platform branches produce folder +
source file name + a platform shared-library extension and differ only in
that extension. -/
theorem get_library_fn_osx_counterexample :
    ¬ ∃ ext : String, get_library_fn_osx "_tlang_cache" 7
      = "_tlang_cache" ++ "/" ++ get_source_name 7 "cpp" ++ ext := by
  rintro ⟨ext, hext⟩
  have hd : (get_library_fn_osx "_tlang_cache" 7).data
      = ("_tlang_cache" ++ "/" ++ get_source_name 7 "cpp").data ++ ext.data := by
    rw [hext, String.data_append]
  have h24 : (get_library_fn_osx "_tlang_cache" 7).data.take 24
      = ("_tlang_cache" ++ "/" ++ get_source_name 7 "cpp").data := by
    rw [hd, List.take_left' (by decide)]
  exact absurd h24 (by decide)

theorem allocSeq_range (n : Nat) :
    ∀ st : Nat, st + n ≤ 10000 →
      allocSeq n st = some (List.range' st n, st + n) := by
  induction n with
  | zero => intro st h; simp [allocSeq]
  | succ n ih =>
    intro st h
    have hlt : st < 10000 := by omega
    have h1 : st + 1 + n ≤ 10000 := by omega
    have harith : st + 1 + n = st + (n + 1) := by omega
    simp [allocSeq, get_kernel_id, hlt, ih (st + 1) h1, List.range'_succ,
      harith]

/-- Claim C4: Sequentially allocating `N` kernel ids starting from the initial
counter state yields exactly the ids `0, 1, ..., N-1` — `N` distinct,
strictly increasing integers starting at 0 — provided `N ≤ 10000`; once the
ceiling of 10000 allocations is reached, the next `get_kernel_id` call fails
the `TC_ASSERT` and aborts. -/
theorem get_kernel_id_strictly_increasing (N : Nat) (h : N ≤ 10000) :
    (allocSeq N 0 = some (List.range N, N)
      ∧ List.Pairwise (fun i j => i < j) (List.range N))
    ∧ get_kernel_id 10000 = none := by
  refine ⟨⟨?_, ?_⟩, by simp [get_kernel_id]⟩
  · have h0 := allocSeq_range N 0 (by omega)
    simpa [List.range_eq_range'] using h0
  · exact List.pairwise_lt_range N

theorem get_kernel_id_strictly_increasing_witness :
    (allocSeq 3 0 = some (List.range 3, 3)
      ∧ List.Pairwise (fun i j => i < j) (List.range 3))
    ∧ get_kernel_id 10000 = none :=
  get_kernel_id_strictly_increasing 3 (by decide)

theorem stepOp_exitScope_of_guards (X : GuardedState) (p : CodeRegion)
    (g : List CodeRegion) (hX : X.guards = p :: g) :
    (stepOp X Op.exitScope).gen.current_code_region = p
    ∧ (stepOp X Op.exitScope).guards = g := by
  obtain ⟨gen, gl⟩ := X
  cases hX
  exact ⟨rfl, rfl⟩

theorem runOps_balanced_restores (ops : List Op) (h : Balanced ops) :
    ∀ st : GuardedState,
      (runOps st ops).gen.current_code_region = st.gen.current_code_region
      ∧ (runOps st ops).guards = st.guards := by
  induction h with
  | nil => exact fun st => ⟨rfl, rfl⟩
  | emitCons s rest hrest ih =>
    intro st
    exact ih (stepOp st (Op.emitText s))
  | scope r inner rest hinner hrest ih1 ih2 =>
    intro st
    have e1 : runOps st (Op.enter r :: inner ++ Op.exitScope :: rest)
        = runOps (stepOp (runOps (stepOp st (Op.enter r)) inner)
            Op.exitScope) rest := by
      simp [runOps, List.foldl_cons, List.foldl_append]
    have h1 := ih1 (stepOp st (Op.enter r))
    have hg : (runOps (stepOp st (Op.enter r)) inner).guards
        = st.gen.current_code_region :: st.guards := h1.2
    obtain ⟨hc, hgds⟩ :=
      stepOp_exitScope_of_guards (runOps (stepOp st (Op.enter r)) inner)
        st.gen.current_code_region st.guards hg
    have h2 := ih2 (stepOp (runOps (stepOp st (Op.enter r)) inner) Op.exitScope)
    rw [e1]
    exact ⟨h2.1.trans hc, h2.2.trans hgds⟩

theorem runOps_line_suffix (ops : List Op) :
    ∀ st : GuardedState,
      (runOps st ops).gen.line_suffix = st.gen.line_suffix := by
  induction ops with
  | nil => exact fun st => rfl
  | cons op ops ih =>
    intro st
    have e : runOps st (op :: ops) = runOps (stepOp st op) ops := rfl
    rw [e, ih (stepOp st op)]
    cases op with
    | enter r => rfl
    | exitScope =>
      obtain ⟨gen, gl⟩ := st
      cases gl <;> rfl
    | emitText s => rfl

/-- Claim C3: For any well-nested sequence of operations performed while a
region guard is alive, the guard's destruction restores exactly the region
that was active immediately before the guard was created (and the stack of
live guards is as before), so nested guards restore in strict reverse order
of creation; moreover, an `emit` performed right after the guard's exit
appends to the restored (prior) region. -/
theorem codeRegionGuard_restores_previous (st : GuardedState) (r : CodeRegion)
    (body : List Op) (h : Balanced body) :
    (runOps st (Op.enter r :: body ++ [Op.exitScope])).gen.current_code_region
      = st.gen.current_code_region
    ∧ (runOps st (Op.enter r :: body ++ [Op.exitScope])).guards = st.guards
    ∧ ∀ s : String,
        (runOps st (Op.enter r :: body ++ [Op.exitScope, Op.emitText s])).gen.codes
          = applyEmit
              (runOps st (Op.enter r :: body ++ [Op.exitScope])).gen.codes
              st.gen.current_code_region s st.gen.line_suffix := by
  have hb : Balanced (Op.enter r :: body ++ [Op.exitScope]) :=
    Balanced.scope r body [] h Balanced.nil
  have hmain := runOps_balanced_restores (Op.enter r :: body ++ [Op.exitScope])
    hb st
  refine ⟨hmain.1, hmain.2, fun s => ?_⟩
  have e : Op.enter r :: body ++ [Op.exitScope, Op.emitText s]
      = (Op.enter r :: body ++ [Op.exitScope]) ++ [Op.emitText s] := by
    simp
  have e2 : runOps st ((Op.enter r :: body ++ [Op.exitScope])
        ++ [Op.emitText s])
      = stepOp (runOps st (Op.enter r :: body ++ [Op.exitScope]))
          (Op.emitText s) := by
    simp [runOps, List.foldl_append]
  rw [e, e2]
  show applyEmit _ (runOps st (Op.enter r :: body ++ [Op.exitScope])).gen.current_code_region
      s (runOps st (Op.enter r :: body ++ [Op.exitScope])).gen.line_suffix = _
  rw [hmain.1, runOps_line_suffix]

theorem codeRegionGuard_restores_previous_witness :
    (runOps ⟨CodeGenBase_init, []⟩
        (Op.enter CodeRegion.body ::
          (Op.enter CodeRegion.residual_begin ::
              (Op.enter CodeRegion.tail :: [] ++ Op.exitScope ::
                  [Op.emitText "x"])
            ++ Op.exitScope :: [Op.emitText "y"])
          ++ [Op.exitScope])).gen.current_code_region
      = CodeRegion.header :=
  (codeRegionGuard_restores_previous ⟨CodeGenBase_init, []⟩ CodeRegion.body
    (Op.enter CodeRegion.residual_begin ::
        (Op.enter CodeRegion.tail :: [] ++ Op.exitScope :: [Op.emitText "x"])
      ++ Op.exitScope :: [Op.emitText "y"])
    (Balanced.scope CodeRegion.residual_begin
      (Op.enter CodeRegion.tail :: [] ++ Op.exitScope :: [Op.emitText "x"])
      [Op.emitText "y"]
      (Balanced.scope CodeRegion.tail [] [Op.emitText "x"] Balanced.nil
        (Balanced.emitCons "x" [] Balanced.nil))
      (Balanced.emitCons "y" [] Balanced.nil))).1

theorem foldl_applyEmit_apply (evs : List (CodeRegion × String)) :
    ∀ (codes0 : CodeBuffer) (r : CodeRegion),
      (evs.foldl (fun codes e => applyEmit codes e.1 e.2 "\n") codes0) r
        = if (regionEmits evs r).isEmpty then codes0 r
          else some ((codes0 r).getD "" ++ joinNL (regionEmits evs r)) := by
  induction evs with
  | nil => intro codes0 r; simp [regionEmits, joinNL]
  | cons a evs ih =>
    obtain ⟨ra, sa⟩ := a
    intro codes0 r
    rw [List.foldl_cons, ih]
    by_cases hra : ra = r
    · subst hra
      have hre : regionEmits ((ra, sa) :: evs) ra = sa :: regionEmits evs ra := by
        simp [regionEmits, List.filter_cons]
      have happ : applyEmit codes0 ra sa "\n" ra
          = some ((codes0 ra).getD "" ++ sa ++ "\n") := by
        simp [applyEmit]
      rw [hre, happ, joinNL_cons]
      by_cases he : (regionEmits evs ra).isEmpty
      · have he2 : regionEmits evs ra = [] := by
          simpa [List.isEmpty_iff] using he
        simp [he, he2, joinNL, String.join, String.append_empty,
          stringAppend_assoc]
      · simp [he, stringAppend_assoc]
    · have hra2 : r ≠ ra := fun hh => hra hh.symm
      have hre : regionEmits ((ra, sa) :: evs) r = regionEmits evs r := by
        simp [regionEmits, List.filter_cons, hra]
      have happ : applyEmit codes0 ra sa "\n" r = codes0 r := by
        simp [applyEmit, hra2]
      rw [hre, happ]

theorem emitsToCodes_apply (evs : List (CodeRegion × String)) (r : CodeRegion) :
    emitsToCodes evs r
      = if (regionEmits evs r).isEmpty then none
        else some (joinNL (regionEmits evs r)) := by
  have h := foldl_applyEmit_apply evs (fun _ => none) r
  simpa [emitsToCodes, String.empty_append] using h

theorem filterMap_eq_map_filter {α β : Type} (f : α → Option β) (p : α → Bool)
    (g : α → β) (l : List α)
    (h : ∀ a ∈ l, f a = if p a then some (g a) else none) :
    l.filterMap f = (l.filter p).map g := by
  induction l with
  | nil => rfl
  | cons a l ih =>
    have ha := h a (by simp)
    have hl := ih fun b hb => h b (by simp [hb])
    cases hp : p a with
    | true =>
      rw [hp] at ha
      simp only [if_pos trivial] at ha
      simp [List.filterMap_cons, List.filter_cons, ha, hp, hl]
    | false =>
      rw [hp] at ha
      simp only [Bool.false_eq_true, if_neg (fun hh => hh)] at ha
      simp [List.filterMap_cons, List.filter_cons, ha, hp, hl]

theorem assembleSource_emitsToCodes (evs : List (CodeRegion × String)) :
    assembleSource (emitsToCodes evs) = specOrderedOutput evs := by
  unfold assembleSource specOrderedOutput
  congr 1
  apply filterMap_eq_map_filter
  intro r _
  rw [emitsToCodes_apply]
  by_cases he : (regionEmits evs r).isEmpty
  · simp [he]
  · simp [he]

/-- Claim C1: For any interleaving of emit calls across any set of regions
(and any prior target-file content without the debug marker),
`write_source` performs the overwrite and the bytes written are exactly:
the regions that received at least one emit, in the fixed `CodeRegion`
declaration order (header first, tail last), each preceded by a
region-marker comment line naming the region and followed by that region's
accumulated text verbatim — a result depending only on the per-region
projections of the emit sequence, never on the interleaving order. -/
theorem write_source_fixed_region_order (existing : Option String)
    (evs : List (CodeRegion × String))
    (h : firstLineContainsDebug existing = false) :
    (write_source existing (emitsToCodes evs)).fileContent
      = specOrderedOutput evs
    ∧ (write_source existing (emitsToCodes evs)).wrote = true := by
  constructor
  · simp [write_source, h, assembleSource_emitsToCodes]
  · simp [write_source, h]

theorem write_source_fixed_region_order_witness :
    (write_source none (emitsToCodes
        [(CodeRegion.body, "x = 1;"), (CodeRegion.header, "y = 2;")])).fileContent
      = "// region header\ny = 2;\n// region body\nx = 1;\n" := by
  have h := (write_source_fixed_region_order none
    [(CodeRegion.body, "x = 1;"), (CodeRegion.header, "y = 2;")]
    (by decide)).1
  rw [h]
  decide

end Taichi
